import Mathlib

/-!
Verification development for the prompty template rendering engine.

The Go sources are shallowly embedded: the chat data model, the payload
extraction (`getPayloadFields`), the per-call render pipeline
(`FormatStruct`), the history splice (`spliceHistory`), the required-variable
merge and validation, the optional-message elision (`allVarsZeroForMessage`),
and the token-bounded truncation (`makeTruncateTokens`).

Modelling conventions:
- Go strings handled rune-wise become `List Char`; `[]rune`-indexed prefixes
  become `List.take`.
- Go `any` values that flow through the merged variable map become the
  inductive `Value`, with one constructor per reflect kind the code
  distinguishes.  `reflect.Value.IsZero` becomes `valueIsZero`.
- Go maps become association lists with overwrite-on-insert (`mapsSet`) and
  first-match lookup (`mapsGet`); only lookup semantics are observable.
- Struct reflection over payloads becomes an explicit list of
  `PayloadField`s: the `prompt` tag, the exportedness of the field
  (reflect's `CanInterface`), and the field's value, where a field of Go
  type `[]ChatMessage` is the `history` case.
- `text/template` is an external library; its parse trees are embedded as
  the fragment `TplNode` (literal text, `.a.b` field access, concatenation,
  `if`-conditionals), evaluated by `evalTpl` with the default
  `missingkey=default` behaviour of the engine (missing keys render
  `<no value>`, field access into a non-map fails).  Variable extraction
  (`extractVarsFromTree`) mirrors the walk that records the root identifier
  of every field-access node, deduplicated, excluding `Tools`.
- Context cancellation and the concurrent schema cache are not modelled:
  both are scheduling concerns invisible to the input/output behaviour
  studied here.
-/

namespace Prompty

/-- Message roles, from `prompty.go`. -/
inductive Role where
  | system
  | developer
  | user
  | assistant
  | tool
deriving DecidableEq, Repr

/-- Content parts (the sealed `ContentPart` set from `prompty.go`).  The
renderer only ever produces the `text` variant. -/
inductive ContentPart where
  | text (text : String) (cacheControl : String)
  | media (mediaType mimeType url : String) (dataBytes : List Nat) (cacheControl : String)
  | reasoning (text : String)
  | toolCall (id name args argsChunk : String)
  | toolResult (toolCallID name content : String) (isError : Bool)
deriving DecidableEq, Repr

/-- A chat message: role plus content parts, from `prompty.go`. -/
structure ChatMessage where
  role : Role
  content : List ContentPart
deriving DecidableEq, Repr

/-- Tool definition from `prompty.go`.  `Parameters` is a JSON-schema map
whose entries are opaque to the render pipeline, so they are embedded as
key/serialized-value pairs (no claim in this development inspects them; the
aliasing of the parameters map is studied separately in the heap model). -/
structure ToolDefinition where
  name : String
  description : String
  parameters : List (String × String)
deriving DecidableEq, Repr

/-- The `Value` type embeds the Go `any` values that can sit in the merged
variable map, one constructor per reflect kind the renderer distinguishes.
`vnil` is an interface holding nothing (`v == nil` in Go); for slice, map
and pointer kinds, `none` is the Go nil value of that kind. -/
inductive Value where
  | vnil
  | vstr (s : String)
  | vint (n : Int)
  | vbool (b : Bool)
  | vslice (elems : Option (List Value))
  | vmap (entries : Option (List (String × Value)))
  | vptr (target : Option Value)
  | vfunc (isNil : Bool)
  | vchan (isNil : Bool)
  | vunsafeptr (isNil : Bool)
  | vtools (ts : List ToolDefinition)

/-- Association-list embedding of a Go `map[string]any`: first-match lookup. -/
abbrev VarMap := List (String × Value)

/-- Lookup in a `VarMap` (Go `merged[name]` / the `, ok` form). -/
def mapsGet (m : VarMap) (k : String) : Option Value :=
  (m.find? fun p => p.1 == k).map fun p => p.2

/-- Overwrite-insert into a `VarMap` (Go `m[k] = v`). -/
def mapsSet (m : VarMap) (k : String) (v : Value) : VarMap :=
  (k, v) :: m.filter fun p => p.1 ≠ k

/-- Go `maps.Copy(dst, src)`: every key of `src` overwrites into `dst`. -/
def mapsCopy (dst src : VarMap) : VarMap :=
  src.foldl (fun d p => mapsSet d p.1 p.2) dst

/-- `reflect.Value.IsZero` for the kinds `allVarsZeroForMessage` reaches on
its default branch (from `chat_template.go`): zero string, zero numerics,
false bool, nil slice/map/pointer.  A non-nil empty slice or map is not the
zero value.  (The `vtools` case is a slice kind; it is unreachable from the
render pipeline because `Tools` is excluded from every message's variable
list.) -/
def valueIsZero : Value → Bool
  | .vnil => true
  | .vstr s => s == ""
  | .vint n => n == 0
  | .vbool b => !b
  | .vslice o => o.isNone
  | .vmap o => o.isNone
  | .vptr o => o.isNone
  | .vfunc isNil => isNil
  | .vchan isNil => isNil
  | .vunsafeptr isNil => isNil
  | .vtools ts => ts.isEmpty

/-- The kinds `allVarsZeroForMessage` treats as never-zero: `reflect.Func`,
`reflect.Chan`, `reflect.UnsafePointer` (from `chat_template.go`). -/
def valueNeverZeroKind : Value → Bool
  | .vfunc _ => true
  | .vchan _ => true
  | .vunsafeptr _ => true
  | _ => false

/-- `allVarsZeroForMessage(merged, vars)` from `chat_template.go`: every
variable name is either absent from the merged map, present as nil, or —
unless it is of a func/chan/unsafe-pointer kind, which immediately makes
the answer false — has `reflect.IsZero` true. -/
def allVarsZeroForMessage (merged : VarMap) (vars : List String) : Bool :=
  vars.all fun name =>
    match mapsGet merged name with
    | none => true
    | some .vnil => true
    | some v => if valueNeverZeroKind v then false else valueIsZero v

/-! ## Payload extraction (`getPayloadFields` from the payload module) -/

/-- The value held by one payload struct field: a field whose Go type is
`[]ChatMessage` (the history-compatible type, `isHistory` in the schema) or
any other value. -/
inductive FieldVal where
  | history (ms : List ChatMessage)
  | plain (v : Value)

/-- One field of a payload struct as the extractor sees it: its `prompt`
tag (empty when the annotation is absent, `"-"` for the explicit ignore
marker), whether the field is exported (Go reflect `CanInterface`), and its
value. -/
structure PayloadField where
  tag : String
  exported : Bool
  val : FieldVal

/-- Errors of the render pipeline, one constructor per distinguishable Go
error kind (`errors.go`): `ErrInvalidPayload`, `ErrReservedVariable`, the
`VariableError{Variable, Template, Err: ErrMissingVariable}` wrapper,
`ErrTemplateParse` tagged with the message index, and `ErrTemplateRender`
wrapping the underlying execution failure. -/
inductive PErr where
  | invalidPayload
  | reservedVariable
  | missingVariable (name : String) (templateID : String)
  | templateParse (idx : Nat)
  | templateRender (msg : String)
deriving DecidableEq, Repr

/-- Schema construction filter: a field enters the cached schema exactly
when its `prompt` tag is neither empty nor `"-"` (exportedness is not
consulted at schema-build time). -/
def promptTagUsable (f : PayloadField) : Bool :=
  f.tag ≠ "" && f.tag ≠ "-"

/-- The cached payload schema for a shape: its usable annotated fields in
declaration order. -/
def schemaOf (fields : List PayloadField) : List PayloadField :=
  fields.filter promptTagUsable

/-- One step of the per-call extraction loop: a history-typed field
overwrites the history accumulator, any other field writes its tag into the
variable map — in both cases only when the field is exported
(`CanInterface`); unexported fields are silently skipped. -/
def extractStep (acc : VarMap × List ChatMessage) (f : PayloadField) :
    VarMap × List ChatMessage :=
  match f.val with
  | .history ms => if f.exported then (acc.1, ms) else acc
  | .plain v => if f.exported then (mapsSet acc.1 f.tag v, acc.2) else acc

/-- The per-call extraction loop over the schema fields. -/
def extractFromSchema (schema : List PayloadField) : VarMap × List ChatMessage :=
  schema.foldl extractStep ([], [])

/-- `getPayloadFields` (payload module): build the schema, fail when no
usable annotated field exists, run the per-call loop, and reject the
payload when the resulting variable map carries the reserved key `Tools`. -/
def getPayloadFields (fields : List PayloadField) :
    Except PErr (VarMap × List ChatMessage) :=
  let schema := schemaOf fields
  if schema.isEmpty then .error .invalidPayload
  else
    let ex := extractFromSchema schema
    if (mapsGet ex.1 "Tools").isSome then .error .reservedVariable
    else .ok ex

/-! ## History splice (`spliceHistory` from `chat_template.go`) -/

/-- The insertion index computed by the loop in `spliceHistory`: the length
of the leading run of messages whose role is `system` (the loop breaks at
the first message whose role differs from `RoleSystem`). -/
def spliceInsertAt : List ChatMessage → Nat
  | [] => 0
  | m :: rest => if m.role = Role.system then spliceInsertAt rest + 1 else 0

/-- `spliceHistory(rendered, history)`: identity for empty history,
otherwise `slices.Concat(rendered[:i], history, rendered[i:])` at the
computed index. -/
def spliceHistory (rendered history : List ChatMessage) : List ChatMessage :=
  if history.isEmpty then rendered
  else
    let i := spliceInsertAt rendered
    rendered.take i ++ history ++ rendered.drop i

/-- The length of the leading run of system-role messages, phrased
independently of the splice loop (used to state what the loop computes). -/
def leadingSystemCount (rendered : List ChatMessage) : Nat :=
  (rendered.takeWhile fun m => m.role = Role.system).length

/-! ## Template bodies

The engine delegates parsing and execution to Go's `text/template`; this
embedding gives semantics to the fragment the specification's claims
exercise: literal text, `.root.k1.k2` field access, concatenation of
template pieces, and `if`-conditionals whose condition is a field access.
The compiled template in this repository parses with the library default
`missingkey=default`: a missing map key renders `<no value>` and an `if` on
a missing key is false, while field access into a non-map value is an
execution error. -/

inductive TplNode where
  | lit (s : String)
  | field (root : String) (path : List String)
  | cat (a b : TplNode)
  | cond (root : String) (path : List String) (thn els : TplNode)

/-- The root identifiers of every field-access node of a body, in
depth-first order (what `walkParseNodes` visits and the extraction records
before deduplication). -/
def collectFieldRoots : TplNode → List String
  | .lit _ => []
  | .field root _ => [root]
  | .cat a b => collectFieldRoots a ++ collectFieldRoots b
  | .cond root _ thn els => root :: (collectFieldRoots thn ++ collectFieldRoots els)

/-- `extractVarsFromTree` (payload module): first-seen deduplication of the
field roots, with the reserved identifier `Tools` never recorded. -/
def extractVarsFromTree (t : TplNode) : List String :=
  (collectFieldRoots t).foldl
    (fun acc name => if name = "Tools" ∨ name ∈ acc then acc else acc ++ [name]) []

/-- How a value prints when substituted into text.  Scalars follow Go's
`fmt` verbs; the printed form of composite values is a detail of the
external `text/template` engine that no claim depends on, embedded here as
a fixed placeholder. -/
def renderValue : Value → String
  | .vnil => "<nil>"
  | .vstr s => s
  | .vint n => toString n
  | .vbool b => if b then "true" else "false"
  | _ => "<value>"

/-- `text/template` truthiness (`isTrue`) for `if`: zero numbers, empty
strings, nil/empty collections and nil pointers are false. -/
def valueTruthy : Value → Bool
  | .vnil => false
  | .vstr s => !(s == "")
  | .vint n => !(n == 0)
  | .vbool b => b
  | .vslice none => false
  | .vslice (some l) => !l.isEmpty
  | .vmap none => false
  | .vmap (some es) => !es.isEmpty
  | .vptr o => o.isSome
  | .vfunc isNil => !isNil
  | .vchan isNil => !isNil
  | .vunsafeptr isNil => !isNil
  | .vtools ts => !ts.isEmpty

/-- Resolve the remaining path of a field access against a value: indexing
a nil map yields a missing value (rendered `<no value>`), a present key
recurses, and access into a non-map kind is an execution error. -/
def resolvePath : List String → Value → Except String (Option Value)
  | [], v => .ok (some v)
  | k :: rest, v =>
    match v with
    | .vmap none => .ok none
    | .vmap (some es) =>
      match es.find? fun p => p.1 == k with
      | some p => resolvePath rest p.2
      | none => .ok none
    | _ => .error "cant evaluate field"

/-- Evaluate a field access `.root.path` against the merged map. -/
def evalField (merged : VarMap) (root : String) (path : List String) :
    Except String String :=
  match mapsGet merged root with
  | none => .ok "<no value>"
  | some v =>
    (resolvePath path v).map fun
      | some w => renderValue w
      | none => "<no value>"

/-- Evaluate an `if` condition (a field access) to its truthiness; a
missing key is false. -/
def evalCond (merged : VarMap) (root : String) (path : List String) :
    Except String Bool :=
  match mapsGet merged root with
  | none => .ok false
  | some v =>
    (resolvePath path v).map fun
      | some w => valueTruthy w
      | none => false

/-- Execute a template body against the merged map (`tpl.Execute`). -/
def evalTpl (merged : VarMap) : TplNode → Except String String
  | .lit s => .ok s
  | .field root path => evalField merged root path
  | .cat a b => do
    let x ← evalTpl merged a
    let y ← evalTpl merged b
    pure (x ++ y)
  | .cond root path thn els => do
    if (← evalCond merged root path) then evalTpl merged thn
    else evalTpl merged els

/-! ## The compiled template and the render pipeline (`chat_template.go`) -/

/-- `parsedMessage`: the per-message compiled state.  `tpl` is `Option`al
because the Go field is a nullable pointer checked by the render loop;
`vars` is the variable list pre-computed from the body's parse tree. -/
structure ParsedMessage where
  tpl : Option TplNode
  role : Role
  optional : Bool
  cacheControl : String
  vars : List String

/-- `PromptMetadata` from `prompty.go`. -/
structure PromptMetadata where
  ID : String
  Version : String := ""
  Description : String := ""
  Tags : List String := []
  Environment : String := ""
deriving DecidableEq, Repr

/-- `SchemaDefinition` from `prompty.go`; the schema map's entries are
opaque to the pipeline. -/
structure SchemaDefinition where
  Name : String
  Description : String
  Schema : List (String × String)
deriving DecidableEq, Repr

/-- `ChatPromptTemplate`: the fields of the compiled template that the
render pipeline reads.  `requiredFromAST` is pre-computed by the
constructor from the non-optional parsed messages (see
`extractRequiredVarsFromParsed`); the raw `Messages` slice and the token
counter are not consulted by `FormatStruct` and are omitted. -/
structure ChatPromptTemplate where
  PartialVariables : VarMap
  Tools : List ToolDefinition
  ModelConfig : VarMap
  Metadata : PromptMetadata
  ResponseFormat : Option SchemaDefinition
  RequiredVars : List String
  requiredFromAST : List String
  parsedTemplates : List ParsedMessage

/-- `PromptExecution` from `prompty.go`. -/
structure PromptExecution where
  Messages : List ChatMessage
  Tools : List ToolDefinition
  ModelConfig : VarMap
  Metadata : PromptMetadata
  ResponseFormat : Option SchemaDefinition

/-- The dedup-insert step shared by `mergeRequiredVars` and
`extractRequiredVarsFromParsed`: append a name unless already seen. -/
def addIfNew (acc : List String) (name : String) : List String :=
  if name ∈ acc then acc else acc ++ [name]

/-- `mergeRequiredVars(explicit, fromTemplates)`: unique names, explicit
ones first, preserving order. -/
def mergeRequiredVars (explicit fromTemplates : List String) : List String :=
  fromTemplates.foldl addIfNew (explicit.foldl addIfNew [])

/-- First-seen deduplication of a single list (the specification's
"deduplicated, explicit-first" set, applied to the concatenation). -/
def dedupKeepFirst (names : List String) : List String :=
  names.foldl addIfNew []

/-- `extractRequiredVarsFromParsed`: union, in first-seen order, of the
extracted variables over all non-optional parsed messages with a non-nil
body. -/
def extractRequiredVarsFromParsed (parsed : List ParsedMessage) : List String :=
  parsed.foldl
    (fun acc pm =>
      match pm.tpl with
      | none => acc
      | some t => if pm.optional then acc else (extractVarsFromTree t).foldl addIfNew acc)
    []

/-- The merged variable map of `FormatStruct`: defaults
(`PartialVariables`), overridden by the payload variables, with the
reserved `Tools` entry always set to the template's tool list. -/
def mergedMap (c : ChatPromptTemplate) (vars : VarMap) : VarMap :=
  mapsSet (mapsCopy c.PartialVariables vars) "Tools" (.vtools c.Tools)

/-- The sequential required-variable check of `FormatStruct`: the first
name of the list absent from the merged map, if any. -/
def firstMissing (merged : VarMap) : List String → Option String
  | [] => none
  | n :: rest => if (mapsGet merged n).isNone then some n else firstMissing merged rest

/-- Render one parsed message (the body of the loop after the skip check):
execute the body and wrap the text into a text-content chat message
carrying the message's role and cache control. -/
def renderOne (merged : VarMap) (pm : ParsedMessage) : Except PErr ChatMessage :=
  match pm.tpl with
  | none => .error (.templateParse 0)
  | some t =>
    match evalTpl merged t with
    | .error e => .error (.templateRender e)
    | .ok text => .ok ⟨pm.role, [.text text pm.cacheControl]⟩

/-- The render loop of `FormatStruct`, carrying the message index for the
nil-body parse error: a nil body aborts, an optional message whose
variables are all zero is skipped, an execution failure aborts with a
render error, a success appends the text message. -/
def renderMessagesFrom (merged : VarMap) : Nat → List ParsedMessage →
    Except PErr (List ChatMessage)
  | _, [] => .ok []
  | i, pm :: rest =>
    match pm.tpl with
    | none => .error (.templateParse i)
    | some t =>
      if pm.optional && allVarsZeroForMessage merged pm.vars then
        renderMessagesFrom merged (i + 1) rest
      else
        match evalTpl merged t with
        | .error e => .error (.templateRender e)
        | .ok text =>
          (renderMessagesFrom merged (i + 1) rest).map
            fun out => ⟨pm.role, [.text text pm.cacheControl]⟩ :: out

/-- `FormatStruct` (`chat_template.go`): extract payload variables and
history, merge with defaults and the tool list, validate the required
variables in order, render every message, splice the history, and build
the execution value from the template's fields.  (The per-message context
check and the deep-vs-shallow status of the final clones are aliasing
concerns; the latter is studied in the heap model below.) -/
def formatStruct (c : ChatPromptTemplate) (payload : List PayloadField) :
    Except PErr PromptExecution :=
  match getPayloadFields payload with
  | .error e => .error e
  | .ok (vars, history) =>
    let merged := mergedMap c vars
    let required := mergeRequiredVars c.RequiredVars c.requiredFromAST
    match firstMissing merged required with
    | some name => .error (.missingVariable name c.Metadata.ID)
    | none =>
      match renderMessagesFrom merged 0 c.parsedTemplates with
      | .error e => .error e
      | .ok out =>
        .ok { Messages := spliceHistory out history
              Tools := c.Tools
              ModelConfig := c.ModelConfig
              Metadata := c.Metadata
              ResponseFormat := c.ResponseFormat }

/-! ## Token-bounded truncation (`makeTruncateTokens` from `funcmap.go`)

A Go `TokenCounter` returns both an int and an error; the embedding keeps
both components, `tc s = (count, optional error)`.  The binary search of
the source runs `for lo < hi`; it is embedded with a fuel argument set to
the initial interval width (each iteration shrinks the interval, so the
fuel is never exhausted — `truncSearchGo_fuel_irrelevant` below makes this
precise).  Inside the search the source discards the counter's error
(`n, _ = tc.Count(...)`), so the search consults only the count component.
The search also returns the list of strings it asked the counter to count,
as pure instrumentation that the control flow never reads. -/

/-- The binary search loop: `mid := (lo+hi+1)/2`; keep `mid` as the lower
bound when the prefix of `mid` runes fits in the budget, else shrink the
upper bound to `mid - 1`.  Returns the final `lo` plus the queried
prefixes. -/
def truncSearchGo (cnt : List Char → Int) (runes : List Char) (maxTokens : Int) :
    Nat → Nat → Nat → Nat × List (List Char)
  | 0, lo, _ => (lo, [])
  | fuel + 1, lo, hi =>
    if lo < hi then
      let mid := (lo + hi + 1) / 2
      let q := runes.take mid
      if cnt q ≤ maxTokens then
        let r := truncSearchGo cnt runes maxTokens fuel mid hi
        (r.1, q :: r.2)
      else
        let r := truncSearchGo cnt runes maxTokens fuel lo (mid - 1)
        (r.1, q :: r.2)
    else (lo, [])

/-- The body of the closure `makeTruncateTokens` returns, instrumented with
the list of strings the counter was asked to count: empty result for a
non-positive budget; the initial whole-text count surfaces its error and
returns the text unchanged when it fits; otherwise the binary search over
prefix lengths in `[0, len]` picks the final lower bound. -/
def truncRun (tc : List Char → Int × Option String) (text : List Char)
    (maxTokens : Int) : Except String (List Char) × List (List Char) :=
  if maxTokens ≤ 0 then (.ok [], [])
  else
    match (tc text).2 with
    | some e => (.error e, [text])
    | none =>
      if (tc text).1 ≤ maxTokens then (.ok text, [text])
      else
        let r := truncSearchGo (fun s => (tc s).1) text maxTokens text.length 0 text.length
        (.ok (text.take r.1), text :: r.2)

/-- `truncate_tokens(text, maxTokens)` with the given counter. -/
def truncateTokens (tc : List Char → Int × Option String) (text : List Char)
    (maxTokens : Int) : Except String (List Char) :=
  (truncRun tc text maxTokens).1

/-- The strings the counter is asked to count during one
`truncate_tokens` call. -/
def truncQueries (tc : List Char → Int × Option String) (text : List Char)
    (maxTokens : Int) : List (List Char) :=
  (truncRun tc text maxTokens).2

end Prompty

/-! ## Heap model of the `PromptExecution` construction

The deep-versus-shallow nature of the clones in the return statement of
`FormatStruct` is an aliasing property, so this model makes the Go heap
explicit for exactly the shareable structures involved: the
`map[string]any` objects (a tool's `Parameters`, the `ModelConfig`, a
schema's `Schema`) live in a store addressed by allocation order, and the
`*SchemaDefinition` response format is an address as well.  `slices.Clone`
copies a slice's elements by value — so the addresses inside the elements
are copied, not the maps they point to — and `maps.Clone` allocates a
fresh map with the same entries. -/

namespace PromptyHeap

abbrev Addr := Nat

/-- The mutable heap: every allocated map object, addressed by index; map
entries carry opaque serialized values. -/
structure Store where
  maps : List (List (String × String))
deriving DecidableEq, Repr

/-- Read a map object. -/
def Store.read (st : Store) (a : Addr) : List (String × String) :=
  st.maps.getD a []

/-- Mutate one entry of the map object at `a` (what a caller writing
through a retained reference does). -/
def Store.write (st : Store) (a : Addr) (k v : String) : Store :=
  ⟨st.maps.set a ((k, v) :: (st.read a).filter fun p => p.1 ≠ k)⟩

/-- Allocate a fresh map object holding a copy of the entries of the one
at `a` (Go `maps.Clone` on a non-nil map); cloning the Go nil map returns
nil without allocating. -/
def cloneMapOpt (st : Store) (a : Option Addr) : Store × Option Addr :=
  match a with
  | none => (st, none)
  | some i => (⟨st.maps ++ [st.read i]⟩, some st.maps.length)

/-- A tool definition as it sits on the heap: its `Parameters` map is a
reference (`nil` map possible). -/
structure ToolDefinitionH where
  name : String
  description : String
  parameters : Option Addr
deriving DecidableEq, Repr

/-- A `SchemaDefinition` object: its `Schema` map is a reference. -/
structure SchemaDefH where
  name : String
  description : String
  schema : Option Addr
deriving DecidableEq, Repr

/-- The compiled template's fields read by the return statement of
`FormatStruct`: the tool slice (each element holding a parameters-map
reference), the model-config map reference, the metadata tags, and the
`*SchemaDefinition` pointer — itself an index into the schema objects
list, which this model keeps immutable since only its inner `Schema` map
is writable. -/
structure TemplateH where
  tools : List ToolDefinitionH
  modelConfig : Option Addr
  metadataTags : List String
  responseFormat : Option Nat
  schemas : List SchemaDefH
deriving DecidableEq, Repr

/-- The corresponding fields of the returned `PromptExecution`. -/
structure ExecutionH where
  tools : List ToolDefinitionH
  modelConfig : Option Addr
  metadataTags : List String
  responseFormat : Option Nat
deriving DecidableEq, Repr

/-- The return statement of `FormatStruct` (`chat_template.go`):
`Tools: slices.Clone(c.Tools)` copies the slice elements by value,
`ModelConfig: maps.Clone(c.ModelConfig)` allocates a fresh top-level map,
`meta.Tags = slices.Clone(meta.Tags)` copies the tags, and
`ResponseFormat: c.ResponseFormat` passes the pointer through unchanged. -/
def buildExecution (st : Store) (t : TemplateH) : Store × ExecutionH :=
  let (st1, mc) := cloneMapOpt st t.modelConfig
  (st1,
    { tools := t.tools
      modelConfig := mc
      metadataTags := t.metadataTags
      responseFormat := t.responseFormat })

/-- The parameters map of tool `i` of the template, as read through the
store (what the source template observes). -/
def readToolParams (st : Store) (t : TemplateH) (i : Nat) : List (String × String) :=
  match (t.tools.getD i ⟨"", "", none⟩).parameters with
  | none => []
  | some a => st.read a

end PromptyHeap

namespace Prompty

/-! ## Auxiliary spec-side definitions and concrete instances

Everything below is either a specification-side rephrasing used to state a
claim against the code-side definitions above, or a concrete instance used
by a counterexample or witness. -/

/-- Sequential rendering of a message list with `renderOne` (the shape the
render loop takes once the skip decisions are factored out; used to state
claim C3). -/
def renderList (merged : VarMap) : List ParsedMessage → Except PErr (List ChatMessage)
  | [] => .ok []
  | pm :: rest => do
    let msg ← renderOne merged pm
    let out ← renderList merged rest
    pure (msg :: out)

/-- The claim's per-variable zero test, phrased from its words: a
dependent variable counts as zero when its merged entry is absent, nil,
or — never for the func/chan/unsafe-pointer kinds — the zero value of its
type. -/
def claimVarZero : Option Value → Bool
  | none => true
  | some .vnil => true
  | some v => !valueNeverZeroKind v && valueIsZero v

def devMsgC1 : ChatMessage := ⟨.developer, [.text "D" ""]⟩

def histMsgC1 : ChatMessage := ⟨.user, [.text "H" ""]⟩

def sysMsgC1 : ChatMessage := ⟨.system, [.text "S" ""]⟩

def userMsgC1 : ChatMessage := ⟨.user, [.text "U" ""]⟩

def tplC2 : ChatPromptTemplate :=
  { PartialVariables := []
    Tools := []
    ModelConfig := []
    Metadata := { ID := "greeting" }
    ResponseFormat := none
    RequiredVars := ["a"]
    requiredFromAST := ["b"]
    parsedTemplates := [⟨some (.field "b" []), .user, false, "", ["b"]⟩] }

def payloadC2 : List PayloadField := [⟨"x", true, .plain (.vstr "v")⟩]

/-- The history values of the exported history-typed fields of a schema,
in order (spec-side notion used to state which one the extraction
returns). -/
def historyFieldsOf (schema : List PayloadField) : List (List ChatMessage) :=
  schema.filterMap fun f =>
    match f.val with
    | .history ms => if f.exported then some ms else none
    | .plain _ => none

def msgHA : ChatMessage := ⟨.user, [.text "first" ""]⟩

def msgHB : ChatMessage := ⟨.assistant, [.text "second" ""]⟩

def fieldsC5 : List PayloadField :=
  [⟨"h1", true, .history [msgHA]⟩, ⟨"h2", true, .history [msgHB]⟩]

def fieldsC6 : List PayloadField := [⟨"Tools", true, .history [msgHA]⟩]

def tplC6 : ChatPromptTemplate :=
  { PartialVariables := []
    Tools := []
    ModelConfig := []
    Metadata := { ID := "t6" }
    ResponseFormat := none
    RequiredVars := []
    requiredFromAST := []
    parsedTemplates := [] }

def fieldsC10 : List PayloadField := [⟨"Tools", false, .plain (.vstr "x")⟩]

/-- A counter that succeeds on the two-rune text but errors on every other
string (used to show the binary search ignores counter errors). -/
def tcC4 : List Char → Int × Option String := fun s =>
  if s = ['a', 'b'] then (10, none) else (0, some "boom")

/-- A counter that always errors. -/
def tcC4w : List Char → Int × Option String := fun _ => (0, some "down")

/-- The constant counter 5: error-free and monotone, yet over any positive
budget below 5 even the empty prefix does not fit. -/
def tcC7 : List Char → Int × Option String := fun _ => (5, none)

/-- A one-token-per-rune counter (error-free, monotone). -/
def tcCountC7 : List Char → Int × Option String := fun s => (s.length, none)

def storeC8 : PromptyHeap.Store := ⟨[[("p", "1")], [("s", "2")], [("m", "3")]]⟩

def tplC8 : PromptyHeap.TemplateH :=
  { tools := [⟨"tool1", "d", some 0⟩]
    modelConfig := some 2
    metadataTags := []
    responseFormat := some 0
    schemas := [⟨"fmt", "", some 1⟩] }

def tplC9 : ChatPromptTemplate :=
  { PartialVariables := []
    Tools := []
    ModelConfig := []
    Metadata := { ID := "c9" }
    ResponseFormat := none
    RequiredVars := []
    requiredFromAST := []
    parsedTemplates := [⟨some (.lit "Hi"), .system, false, "", []⟩] }

def pC9a : List PayloadField :=
  [⟨"x", true, .plain (.vstr "")⟩,
   ⟨"h", true, .history [⟨.user, [.text "secret" ""]⟩]⟩]

def pC9b : List PayloadField := [⟨"x", true, .plain (.vstr "")⟩]

def pC9c : List PayloadField := [⟨"x", true, .plain (.vstr "different")⟩]

/-! ## Claim C1 — history splice -/

/-- The splice loop computes the length of the leading run of system-role
messages. -/
theorem spliceInsertAt_eq_leadingSystemCount (rendered : List ChatMessage) :
    spliceInsertAt rendered = leadingSystemCount rendered := by
  induction rendered with
  | nil => rfl
  | cons m rest ih =>
    by_cases h : m.role = Role.system
    · simp [spliceInsertAt, leadingSystemCount, List.takeWhile, h] at ih ⊢
      exact ih
    · simp [spliceInsertAt, leadingSystemCount, List.takeWhile, h]

/-- A list every element of which satisfies the predicate is its own
`takeWhile`. -/
theorem takeWhile_eq_self_of_all {α : Type} (p : α → Bool) (l : List α)
    (h : ∀ a ∈ l, p a = true) : l.takeWhile p = l := by
  induction l with
  | nil => rfl
  | cons a rest ih =>
    have ha := h a (by simp)
    simp only [List.takeWhile, ha, List.cons.injEq, true_and]
    exact ih fun b hb => h b (by simp [hb])

/-- C1 counterexample: the claim states that a developer-role rendered
message belongs to the leading system/developer run, so for a rendered
list consisting of a single developer-role message the history should be
appended after it; the code's `spliceHistory` breaks at the first
non-system role and inserts the history before the developer message. -/
theorem spliceHistory_developer_cex :
    spliceHistory [devMsgC1] [histMsgC1] = [histMsgC1, devMsgC1] ∧
    spliceHistory [devMsgC1] [histMsgC1] ≠ [devMsgC1, histMsgC1] := by
  refine ⟨rfl, ?_⟩
  decide

/-- C1 (amended): for every rendered list and history, `spliceHistory`
returns the rendered list unchanged when the history is empty, and
otherwise inserts the entire history, in order, at the index ending the
leading run of system-role messages (a developer-role message ends the
run); when every rendered message has role system, the history is appended
after all of them. -/
theorem spliceHistory_spec (rendered history : List ChatMessage) :
    spliceHistory rendered [] = rendered ∧
    (history ≠ [] →
      spliceHistory rendered history =
        rendered.take (leadingSystemCount rendered) ++ history ++
          rendered.drop (leadingSystemCount rendered)) ∧
    (history ≠ [] → (∀ m ∈ rendered, m.role = Role.system) →
      spliceHistory rendered history = rendered ++ history) := by
  refine ⟨by simp [spliceHistory], ?_, ?_⟩
  · intro hne
    simp [spliceHistory, List.isEmpty_iff, hne, spliceInsertAt_eq_leadingSystemCount]
  · intro hne hall
    have hcount : leadingSystemCount rendered = rendered.length := by
      unfold leadingSystemCount
      rw [takeWhile_eq_self_of_all _ _ (by intro a ha; simpa using hall a ha)]
    simp [spliceHistory, List.isEmpty_iff, hne, spliceInsertAt_eq_leadingSystemCount,
      hcount, List.take_length, List.drop_length]

/-- C1 witness: the amended theorem applied to a concrete template
rendering `[system, user]` with a one-message history inserts the history
right after the system message. -/
theorem spliceHistory_spec_witness :
    spliceHistory [sysMsgC1, userMsgC1] [histMsgC1] =
      [sysMsgC1, histMsgC1, userMsgC1] := by
  have h := (spliceHistory_spec [sysMsgC1, userMsgC1] [histMsgC1]).2.1 (by decide)
  rw [h]
  decide

/-! ## Claim C2 — required-variable validation -/

/-- The render loop only ever fails with parse or render errors: it never
produces a missing-variable error (validation happens before it runs). -/
theorem renderMessagesFrom_not_missingVariable (merged : VarMap) :
    ∀ (pms : List ParsedMessage) (i : Nat) (name tid : String),
    renderMessagesFrom merged i pms ≠ .error (.missingVariable name tid) := by
  intro pms
  induction pms with
  | nil => intro i name tid h; simp [renderMessagesFrom] at h
  | cons pm rest ih =>
    intro i name tid h
    cases htpl : pm.tpl with
    | none => simp [renderMessagesFrom, htpl] at h
    | some t =>
      simp only [renderMessagesFrom, htpl] at h
      by_cases hskip : pm.optional && allVarsZeroForMessage merged pm.vars
      · rw [if_pos hskip] at h
        exact ih (i + 1) name tid h
      · rw [if_neg hskip] at h
        cases hev : evalTpl merged t with
        | error e => rw [hev] at h; simp at h
        | ok text =>
          rw [hev] at h
          cases hr : renderMessagesFrom merged (i + 1) rest with
          | error e2 =>
            rw [hr] at h
            simp only [Except.map, Except.error.injEq] at h
            exact ih (i + 1) name tid (by rw [hr, h])
          | ok out => rw [hr] at h; simp [Except.map] at h

/-- C2: for a compiled template whose derived required names come from its
non-optional parsed messages and a payload whose extraction succeeds,
`FormatStruct` validates the merged required list — explicit names
followed by derived names, first-seen deduplicated (the fourth conjunct
identifies the sequential check with the first-match search) — and for the
first name absent from the merged map it returns the missing-variable
error carrying exactly that name and the template's identity; when no name
is missing, no missing-variable error is ever returned. -/
theorem formatStruct_required_validation
    (c : ChatPromptTemplate) (payload : List PayloadField)
    (vars : VarMap) (history : List ChatMessage)
    (hast : c.requiredFromAST = extractRequiredVarsFromParsed c.parsedTemplates)
    (hpf : getPayloadFields payload = .ok (vars, history)) :
    mergeRequiredVars c.RequiredVars c.requiredFromAST =
      dedupKeepFirst (c.RequiredVars ++ c.requiredFromAST) ∧
    (∀ name,
      firstMissing (mergedMap c vars)
        (mergeRequiredVars c.RequiredVars c.requiredFromAST) = some name →
      formatStruct c payload = .error (.missingVariable name c.Metadata.ID)) ∧
    (firstMissing (mergedMap c vars)
        (mergeRequiredVars c.RequiredVars c.requiredFromAST) = none →
      ∀ name tid, formatStruct c payload ≠ .error (.missingVariable name tid)) ∧
    (∀ req, firstMissing (mergedMap c vars) req =
      req.find? fun n => (mapsGet (mergedMap c vars) n).isNone) := by
  refine ⟨?_, ?_, ?_, ?_⟩
  · simp [mergeRequiredVars, dedupKeepFirst, List.foldl_append]
  · intro name hmiss
    simp only [formatStruct, hpf, hmiss]
  · intro hnone name tid
    simp only [formatStruct, hpf, hnone]
    cases hr : renderMessagesFrom (mergedMap c vars) 0 c.parsedTemplates with
    | error e =>
      simp only [ne_eq, Except.error.injEq]
      intro he
      exact renderMessagesFrom_not_missingVariable (mergedMap c vars)
        c.parsedTemplates 0 name tid (by rw [hr, he])
    | ok out => simp
  · intro req
    induction req with
    | nil => rfl
    | cons n rest ih =>
      cases hIs : (mapsGet (mergedMap c vars) n).isNone with
      | true => simp [firstMissing, List.find?, hIs]
      | false => simp [firstMissing, List.find?, hIs, ih]

/-- C2 witness: a template with explicit required name `a` and derived
required name `b`, rendered with a payload supplying only `x`, fails with
the missing-variable error naming `a` (the explicit name is checked
first) and the template identity `greeting`. -/
theorem formatStruct_required_validation_witness :
    formatStruct tplC2 payloadC2 = .error (.missingVariable "a" "greeting") := by
  exact (formatStruct_required_validation tplC2 payloadC2 [("x", .vstr "v")] []
    (by rfl) (by rfl)).2.1 "a" (by rfl)

/-! ## Claim C3 — optional-message elision -/

/-- C3: with every message body present, the render loop produces exactly
the messages whose elision test fails — an optional message is omitted
precisely when `allVarsZeroForMessage` holds of its variables; that test
agrees with the claim's reading (each dependent name absent, nil, or the
zero value of its type, with func-, chan- and unsafe-pointer-kind values
never treated as zero), and a variable holding a value of one of those
kinds forces the message to render. -/
theorem optionalMessage_elision (merged : VarMap) (pms : List ParsedMessage) (i : Nat)
    (hall : ∀ pm ∈ pms, pm.tpl.isSome) :
    renderMessagesFrom merged i pms =
      renderList merged
        (pms.filter fun pm => !(pm.optional && allVarsZeroForMessage merged pm.vars)) ∧
    (∀ vs, allVarsZeroForMessage merged vs =
      vs.all fun n => claimVarZero (mapsGet merged n)) ∧
    (∀ vs n v, n ∈ vs → mapsGet merged n = some v → valueNeverZeroKind v = true →
      allVarsZeroForMessage merged vs = false) := by
  refine ⟨?_, ?_, ?_⟩
  · induction pms generalizing i with
    | nil => rfl
    | cons pm rest ih =>
      obtain ⟨t, ht⟩ := Option.isSome_iff_exists.mp (hall pm (by simp))
      have hrest : ∀ q ∈ rest, q.tpl.isSome := fun q hq => hall q (by simp [hq])
      by_cases hskip : pm.optional && allVarsZeroForMessage merged pm.vars
      · rw [List.filter_cons, if_neg (by simp [hskip])]
        simp only [renderMessagesFrom, ht, if_pos hskip]
        exact ih (i + 1) hrest
      · have hskip' : (pm.optional && allVarsZeroForMessage merged pm.vars) = false := by
          simpa using hskip
        rw [List.filter_cons, if_pos (by simp [hskip'])]
        simp only [renderMessagesFrom, ht, hskip', Bool.false_eq_true, if_false]
        cases hev : evalTpl merged t with
        | error e =>
          simp only [renderList, renderOne, ht, hev]
          rfl
        | ok text =>
          rw [ih (i + 1) hrest]
          simp only [renderList, renderOne, ht, hev]
          cases hm : renderList merged (rest.filter fun pm =>
              !(pm.optional && allVarsZeroForMessage merged pm.vars)) with
          | error e => rfl
          | ok out => rfl
  · intro vs
    unfold allVarsZeroForMessage
    have hfun : ∀ name : String,
        (match mapsGet merged name with
          | none => true
          | some .vnil => true
          | some v => if valueNeverZeroKind v then false else valueIsZero v) =
        claimVarZero (mapsGet merged name) := by
      intro name
      cases hg : mapsGet merged name with
      | none => simp [claimVarZero]
      | some v => cases v <;> simp [claimVarZero, valueNeverZeroKind, valueIsZero]
    simp only [hfun]
  · intro vs n v hn hv hz
    unfold allVarsZeroForMessage
    rw [List.all_eq_false]
    refine ⟨n, hn, ?_⟩
    rw [hv]
    cases v <;> simp_all [valueNeverZeroKind]

/-- C3 witness: an optional message whose sole dependent variable `extra`
is present with the empty string is omitted — the render loop returns the
empty message list. -/
theorem optionalMessage_elision_witness :
    renderMessagesFrom [("extra", Value.vstr "")] 0
      [⟨some (.field "extra" []), .user, true, "", ["extra"]⟩] = .ok [] := by
  have h := (optionalMessage_elision [("extra", Value.vstr "")]
    [⟨some (.field "extra" []), .user, true, "", ["extra"]⟩] 0
    (by intro pm hpm; simp only [List.mem_singleton] at hpm; simp [hpm])).1
  rw [h]
  rfl

/-! ## Claim C5 — which history field wins -/

/-- The per-call loop's history accumulator holds the value of the last
exported history-typed schema field, defaulting to the incoming
accumulator. -/
theorem extractFromSchema_history_last (schema : List PayloadField) :
    ∀ acc : VarMap × List ChatMessage,
    (schema.foldl extractStep acc).2 = (historyFieldsOf schema).getLastD acc.2 := by
  induction schema with
  | nil => intro acc; rfl
  | cons f rest ih =>
    intro acc
    cases hv : f.val with
    | history ms =>
      cases he : f.exported with
      | true =>
        simp only [List.foldl_cons, historyFieldsOf, List.filterMap_cons, hv, he,
          if_true, List.getLastD_cons]
        have := ih (acc.1, ms)
        simp only [extractStep, hv, he, if_true]
        simpa [historyFieldsOf] using this
      | false =>
        simp only [List.foldl_cons, historyFieldsOf, List.filterMap_cons, hv, he]
        have := ih acc
        simp only [extractStep, hv, he]
        simpa [historyFieldsOf] using this
    | plain v =>
      cases he : f.exported with
      | true =>
        simp only [List.foldl_cons, historyFieldsOf, List.filterMap_cons, hv, he, if_true]
        have := ih (mapsSet acc.1 f.tag v, acc.2)
        simp only [extractStep, hv, he, if_true]
        simpa [historyFieldsOf] using this
      | false =>
        simp only [List.foldl_cons, historyFieldsOf, List.filterMap_cons, hv, he]
        have := ih acc
        simp only [extractStep, hv, he]
        simpa [historyFieldsOf] using this

def payloadHistoryFirstCexExpected : List ChatMessage := [msgHA]

/-- C5 counterexample: for a payload with two exported history-typed
annotated fields holding `[msgHA]` and `[msgHB]`, the claim says the
returned history is the first field's value `[msgHA]`; the extraction
returns `[msgHB]` — the loop overwrites the history with every
history-typed field it visits, so the last one wins. -/
theorem payload_history_first_cex :
    getPayloadFields fieldsC5 = .ok ([], [msgHB]) ∧
    ([msgHB] : List ChatMessage) ≠ payloadHistoryFirstCexExpected := by
  refine ⟨rfl, ?_⟩
  decide

/-- C5 (amended): when extraction succeeds, the returned history is the
value of the last exported history-typed annotated field (later
history-typed fields override earlier ones; unexported ones are skipped),
defaulting to the empty history. -/
theorem getPayloadFields_history_lastWins (fields : List PayloadField)
    (vars : VarMap) (history : List ChatMessage)
    (h : getPayloadFields fields = .ok (vars, history)) :
    history = (historyFieldsOf (schemaOf fields)).getLastD [] := by
  by_cases h1 : (schemaOf fields).isEmpty
  · simp [getPayloadFields, h1] at h
  · by_cases h2 : (mapsGet (extractFromSchema (schemaOf fields)).1 "Tools").isSome
    · simp [getPayloadFields, h1, h2] at h
    · have hok : extractFromSchema (schemaOf fields) = (vars, history) := by
        simpa [getPayloadFields, h1, h2] using h
      have := extractFromSchema_history_last (schemaOf fields) ([], [])
      rw [extractFromSchema] at hok
      rw [hok] at this
      exact this

/-- C5 witness: the amended theorem applied to the two-history payload
yields the last field's value. -/
theorem getPayloadFields_history_lastWins_witness :
    ([msgHB] : List ChatMessage) = (historyFieldsOf (schemaOf fieldsC5)).getLastD [] :=
  getPayloadFields_history_lastWins fieldsC5 [] [msgHB] rfl

/-! ## Claim C6 — the reserved `Tools` annotation -/

/-- `find?` by key is unchanged by filtering away pairs with a different
key. -/
theorem find?_filter_ne (m : VarMap) (k k' : String) (hk : k ≠ k') :
    ((m.filter fun p => p.1 ≠ k').find? fun p => p.1 == k) =
      (m.find? fun p => p.1 == k) := by
  induction m with
  | nil => rfl
  | cons p rest ih =>
    rw [List.filter_cons]
    by_cases hp : p.1 = k'
    · have hpred : (p.1 == k) = false := by
        simp only [beq_eq_false_iff_ne, ne_eq, hp]
        exact fun he => hk he.symm
      rw [if_neg (by simp [hp]), ih]
      simp only [List.find?, hpred]
    · rw [if_pos (by simp [hp])]
      simp only [List.find?]
      cases hpred : (p.1 == k) with
      | true => simp only [hpred]
      | false =>
        simp only [hpred]
        exact ih

/-- Lookup after an overwrite-insert: the inserted key reads back the
inserted value, any other key is unchanged. -/
theorem mapsGet_mapsSet (m : VarMap) (k' : String) (v : Value) (k : String) :
    mapsGet (mapsSet m k' v) k = if k = k' then some v else mapsGet m k := by
  by_cases hk : k = k'
  · subst hk
    simp [mapsGet, mapsSet, List.find?_cons]
  · have hpred : (k' == k) = false := by
      simp only [beq_eq_false_iff_ne, ne_eq]
      exact fun he => hk he.symm
    simp only [mapsGet, mapsSet, List.find?_cons, hpred, if_neg hk, cond_false]
    rw [find?_filter_ne m k k' hk]

/-- One extraction step preserves the presence of any key in the variable
map. -/
theorem extractStep_preserves_isSome (k : String) (acc : VarMap × List ChatMessage)
    (f : PayloadField) (h : (mapsGet acc.1 k).isSome = true) :
    (mapsGet (extractStep acc f).1 k).isSome = true := by
  cases hv : f.val with
  | history ms => cases he : f.exported <;> simp [extractStep, hv, he, h]
  | plain v =>
    cases he : f.exported with
    | false => simp [extractStep, hv, he, h]
    | true =>
      simp only [extractStep, hv, he, if_true]
      rw [mapsGet_mapsSet]
      by_cases hk : k = f.tag <;> simp [hk, h]

/-- The whole extraction loop preserves the presence of any key. -/
theorem foldl_extractStep_preserves_isSome (k : String) (schema : List PayloadField) :
    ∀ acc, (mapsGet acc.1 k).isSome = true →
    (mapsGet (schema.foldl extractStep acc).1 k).isSome = true := by
  induction schema with
  | nil => intro acc h; exact h
  | cons f rest ih =>
    intro acc h
    exact ih _ (extractStep_preserves_isSome k acc f h)

/-- An exported non-history field in the schema puts its tag into the
variable map the loop returns. -/
theorem foldl_extractStep_sets_exported_plain (k : String) (v : Value)
    (schema : List PayloadField) :
    ∀ (f : PayloadField) (acc : VarMap × List ChatMessage), f ∈ schema →
    f.tag = k → f.exported = true → f.val = .plain v →
    (mapsGet (schema.foldl extractStep acc).1 k).isSome = true := by
  induction schema with
  | nil => intro f acc hf _ _ _; simp at hf
  | cons g rest ih =>
    intro f acc hf htag hexp hval
    rcases List.mem_cons.mp hf with hfg | hfr
    · subst hfg
      rw [List.foldl_cons]
      apply foldl_extractStep_preserves_isSome
      simp only [extractStep, hval, hexp, if_true]
      rw [mapsGet_mapsSet]
      simp [htag]
    · exact ih f _ hfr htag hexp hval

/-- C6 counterexample: a payload whose only field carries the annotation
`Tools` but has the history-compatible type `[]ChatMessage` is accepted —
the extraction treats it as the history and never writes the reserved key
into the variable map, so neither the extraction nor the whole
`FormatStruct` call fails with the reserved-variable error, contradicting
"regardless of the field's type". -/
theorem reservedTools_history_cex :
    getPayloadFields fieldsC6 = .ok ([], [msgHA]) ∧
    formatStruct tplC6 fieldsC6 =
      .ok ⟨[msgHA], [], [], { ID := "t6" }, none⟩ := by
  exact ⟨rfl, rfl⟩

/-- C6 (amended): a payload containing an exported field annotated `Tools`
whose type is not the history-compatible `[]ChatMessage` always makes
extraction — and hence every `FormatStruct` call with that payload — fail
with the reserved-variable error, whatever the other fields are.
(History-typed fields annotated `Tools` become the history instead, and
unexported ones are skipped — see C10.) -/
theorem reservedTools_rejection (fields : List PayloadField) (f : PayloadField)
    (v : Value) (hmem : f ∈ fields) (htag : f.tag = "Tools")
    (hexp : f.exported = true) (hval : f.val = .plain v) :
    getPayloadFields fields = .error .reservedVariable ∧
    ∀ c, formatStruct c fields = .error .reservedVariable := by
  have hschema : f ∈ schemaOf fields := by
    refine List.mem_filter.mpr ⟨hmem, ?_⟩
    simp [promptTagUsable, htag]
  have hne : ¬ (schemaOf fields).isEmpty = true := by
    intro h
    rw [List.isEmpty_iff] at h
    rw [h] at hschema
    simp at hschema
  have hsome : (mapsGet (extractFromSchema (schemaOf fields)).1 "Tools").isSome = true := by
    unfold extractFromSchema
    exact foldl_extractStep_sets_exported_plain "Tools" v (schemaOf fields) f ([], [])
      hschema htag hexp hval
  have hget : getPayloadFields fields = .error .reservedVariable := by
    simp [getPayloadFields, hne, hsome]
  exact ⟨hget, fun c => by simp [formatStruct, hget]⟩

/-- C6 witness: a payload with an exported string field annotated `Tools`
is rejected with the reserved-variable error even though it also has
another usable field. -/
theorem reservedTools_rejection_witness :
    getPayloadFields [⟨"q", true, .plain (.vstr "hi")⟩,
      ⟨"Tools", true, .plain (.vstr "x")⟩] = .error .reservedVariable := by
  exact (reservedTools_rejection
    [⟨"q", true, .plain (.vstr "hi")⟩, ⟨"Tools", true, .plain (.vstr "x")⟩]
    ⟨"Tools", true, .plain (.vstr "x")⟩ (.vstr "x")
    (by simp) rfl rfl rfl).1

/-! ## Claim C10 — unexported annotated fields -/

/-- The extraction loop is the identity when every schema field is
unexported. -/
theorem foldl_extractStep_all_unexported (schema : List PayloadField) :
    ∀ acc, (∀ g ∈ schema, g.exported = false) → schema.foldl extractStep acc = acc := by
  induction schema with
  | nil => intro acc _; rfl
  | cons f rest ih =>
    intro acc hall
    have hf := hall f (by simp)
    have hstep : extractStep acc f = acc := by
      cases hv : f.val <;> simp [extractStep, hv, hf]
    rw [List.foldl_cons, hstep]
    exact ih acc fun g hg => hall g (by simp [hg])

/-- C10: an annotated but unexported field counts toward the
at-least-one-usable-field check — a payload whose annotated fields are all
unexported is accepted, returning the empty variable map and no history
(in particular an unexported `Tools`-annotated field does not trigger the
reserved-variable rejection) — while the per-call loop skips unexported
fields entirely: deleting an unexported field anywhere in the schema
leaves the extracted variables and history unchanged. -/
theorem unexportedAnnotated_counted_but_skipped (fields : List PayloadField)
    (hsome : ∃ f ∈ fields, promptTagUsable f = true)
    (hunexp : ∀ f ∈ fields, promptTagUsable f = true → f.exported = false) :
    getPayloadFields fields = .ok ([], []) ∧
    ∀ (pre post : List PayloadField) (f : PayloadField), f.exported = false →
      extractFromSchema (pre ++ f :: post) = extractFromSchema (pre ++ post) := by
  constructor
  · obtain ⟨f, hf, hft⟩ := hsome
    have hschema : f ∈ schemaOf fields := List.mem_filter.mpr ⟨hf, hft⟩
    have hne : ¬ (schemaOf fields).isEmpty = true := by
      intro h
      rw [List.isEmpty_iff] at h
      rw [h] at hschema
      simp at hschema
    have hall : ∀ g ∈ schemaOf fields, g.exported = false := by
      intro g hg
      have hm := List.mem_filter.mp hg
      exact hunexp g hm.1 hm.2
    have hid : extractFromSchema (schemaOf fields) = ([], []) :=
      foldl_extractStep_all_unexported (schemaOf fields) ([], []) hall
    simp [getPayloadFields, hne, hid, mapsGet]
  · intro pre post f hf
    unfold extractFromSchema
    rw [List.foldl_append, List.foldl_append, List.foldl_cons]
    have hstep : extractStep (pre.foldl extractStep ([], [])) f =
        pre.foldl extractStep ([], []) := by
      cases hv : f.val <;> simp [extractStep, hv, hf]
    rw [hstep]

/-- C10 witness: a payload whose only annotated field is unexported and
annotated `Tools` is accepted (not rejected as invalid, not rejected as
reserved), and contributes neither variables nor history. -/
theorem unexportedAnnotated_witness :
    getPayloadFields fieldsC10 = .ok ([], []) := by
  exact (unexportedAnnotated_counted_but_skipped fieldsC10
    ⟨⟨"Tools", false, .plain (.vstr "x")⟩, by simp [fieldsC10], rfl⟩
    (by intro f hf _h; simp only [fieldsC10, List.mem_singleton] at hf; subst hf; rfl)).1

/-! ## Claim C4 — counter errors during truncation -/

/-- C4 counterexample: with the counter `tcC4` — which errors on every
string except the full text — at budget 1, the call asks the counter to
count the prefix `"a"` during the binary search, the counter returns an
error for it, and yet the call completes successfully with the truncated
string `"a"` instead of aborting with that error: errors inside the
search are discarded (`n, _ = tc.Count(...)`). -/
theorem truncateTokens_search_error_ignored_cex :
    (['a'] ∈ truncQueries tcC4 ['a', 'b'] 1) ∧
    (tcC4 ['a']).2 = some "boom" ∧
    truncateTokens tcC4 ['a', 'b'] 1 = .ok ['a'] := by
  refine ⟨?_, rfl, rfl⟩
  decide

/-- C4 (amended): an error from the initial count of the whole text aborts
the call and surfaces exactly that error; counter errors for the prefixes
counted during the binary search are ignored — the result depends only on
the counter's count components together with its error status on the full
text. -/
theorem truncateTokens_error_handling
    (tc tcB : List Char → Int × Option String) (text : List Char)
    (maxTokens : Int) (n : Int) (e : String) :
    (0 < maxTokens → tc text = (n, some e) →
      truncateTokens tc text maxTokens = .error e) ∧
    ((∀ s, (tc s).1 = (tcB s).1) → (tc text).2 = (tcB text).2 →
      truncateTokens tc text maxTokens = truncateTokens tcB text maxTokens) := by
  constructor
  · intro hpos htc
    have h2 : (tc text).2 = some e := by rw [htc]
    simp only [truncateTokens, truncRun, h2, if_neg (by omega : ¬ maxTokens ≤ 0)]
  · intro h1 h2
    have hcnt : (fun s => (tc s).1) = fun s => (tcB s).1 := funext h1
    simp only [truncateTokens, truncRun, h1 text, h2, hcnt]

/-- C4 witness: a counter that errors on the full text makes the call
surface that error. -/
theorem truncateTokens_error_handling_witness :
    truncateTokens tcC4w ['x'] 3 = .error "down" := by
  exact (truncateTokens_error_handling tcC4w tcC4w ['x'] 3 0 "down").1
    (by norm_num) rfl

/-! ## Claim C7 — truncation correctness for a monotone counter -/

/-- Binary-search invariant: starting from a lower bound whose prefix fits
the budget and an upper bound above which no prefix fits, the search lands
on the greatest fitting prefix length. -/
theorem truncSearchGo_spec (cnt : List Char → Int) (runes : List Char) (maxT : Int)
    (hmono : ∀ i j, i ≤ j → j ≤ runes.length →
      cnt (runes.take i) ≤ cnt (runes.take j)) :
    ∀ fuel lo hi, hi - lo ≤ fuel → lo ≤ hi → hi ≤ runes.length →
    cnt (runes.take lo) ≤ maxT →
    (∀ M, hi < M → M ≤ runes.length → ¬ cnt (runes.take M) ≤ maxT) →
    lo ≤ (truncSearchGo cnt runes maxT fuel lo hi).1 ∧
    (truncSearchGo cnt runes maxT fuel lo hi).1 ≤ hi ∧
    cnt (runes.take (truncSearchGo cnt runes maxT fuel lo hi).1) ≤ maxT ∧
    ∀ M, M ≤ runes.length → cnt (runes.take M) ≤ maxT →
      M ≤ (truncSearchGo cnt runes maxT fuel lo hi).1 := by
  intro fuel
  induction fuel with
  | zero =>
    intro lo hi hfuel hlh hhl hp hbound
    refine ⟨le_refl _, by simpa [truncSearchGo] using hlh, hp, ?_⟩
    intro M hM hPM
    by_contra hMl
    push_neg at hMl
    exact hbound M (by simp only [truncSearchGo] at hMl; omega) hM hPM
  | succ fuel ih =>
    intro lo hi hfuel hlh hhl hp hbound
    by_cases hlt : lo < hi
    · have hmid1 : lo < (lo + hi + 1) / 2 := by omega
      have hmid2 : (lo + hi + 1) / 2 ≤ hi := by omega
      simp only [truncSearchGo, if_pos hlt]
      by_cases hq : cnt (runes.take ((lo + hi + 1) / 2)) ≤ maxT
      · simp only [if_pos hq]
        exact
          have hrec := ih ((lo + hi + 1) / 2) hi (by omega) (by omega) hhl hq hbound
          ⟨by omega, hrec.2.1, hrec.2.2.1, hrec.2.2.2⟩
      · simp only [if_neg hq]
        have hbound2 : ∀ M, (lo + hi + 1) / 2 - 1 < M → M ≤ runes.length →
            ¬ cnt (runes.take M) ≤ maxT := by
          intro M hM1 hM2 hPM
          exact hq (le_trans (hmono ((lo + hi + 1) / 2) M (by omega) hM2) hPM)
        have hrec := ih lo ((lo + hi + 1) / 2 - 1) (by omega) (by omega) (by omega) hp hbound2
        exact ⟨hrec.1, by omega, hrec.2.2.1, hrec.2.2.2⟩
    · simp only [truncSearchGo, if_neg hlt]
      refine ⟨le_refl _, hlh, hp, ?_⟩
      intro M hM hPM
      by_contra hMl
      push_neg at hMl
      exact hbound M (by omega) hM hPM

/-- When no prefix strictly inside the interval fits the budget, the
search returns its initial lower bound. -/
theorem truncSearchGo_all_fail (cnt : List Char → Int) (runes : List Char) (maxT : Int) :
    ∀ fuel lo hi, (∀ M, lo < M → M ≤ hi → ¬ cnt (runes.take M) ≤ maxT) →
    (truncSearchGo cnt runes maxT fuel lo hi).1 = lo := by
  intro fuel
  induction fuel with
  | zero => intro lo hi _; rfl
  | succ fuel ih =>
    intro lo hi hbound
    by_cases hlt : lo < hi
    · have hmid1 : lo < (lo + hi + 1) / 2 := by omega
      have hmid2 : (lo + hi + 1) / 2 ≤ hi := by omega
      have hq : ¬ cnt (runes.take ((lo + hi + 1) / 2)) ≤ maxT :=
        hbound _ hmid1 hmid2
      simp only [truncSearchGo, if_pos hlt, if_neg hq]
      exact ih lo ((lo + hi + 1) / 2 - 1) fun M h1 h2 => hbound M h1 (by omega)
    · simp only [truncSearchGo, if_neg hlt]

/-- C7 counterexample: the constant counter 5 is error-free and monotone,
the budget 1 is positive and the text's count 5 exceeds it, yet no prefix
length — not even 0 — satisfies the bound, so the "maximal fitting
prefix" the claim promises does not exist; the code returns the empty
string, whose count 5 still exceeds the budget. -/
theorem truncateTokens_empty_over_budget_cex :
    ((tcC7 (List.take 0 ['a', 'b'])).2 = none ∧
      (tcC7 (List.take 1 ['a', 'b'])).2 = none ∧
      (tcC7 (List.take 2 ['a', 'b'])).2 = none) ∧
    ((tcC7 (List.take 0 ['a', 'b'])).1 ≤ (tcC7 (List.take 1 ['a', 'b'])).1 ∧
      (tcC7 (List.take 1 ['a', 'b'])).1 ≤ (tcC7 (List.take 2 ['a', 'b'])).1) ∧
    ((0 : Int) < 1 ∧ (1 : Int) < (tcC7 ['a', 'b']).1) ∧
    truncateTokens tcC7 ['a', 'b'] 1 = .ok [] ∧
    ¬ (tcC7 (List.take 0 ['a', 'b'])).1 ≤ 1 ∧
    ¬ (tcC7 (List.take 1 ['a', 'b'])).1 ≤ 1 ∧
    ¬ (tcC7 (List.take 2 ['a', 'b'])).1 ≤ 1 := by
  refine ⟨⟨rfl, rfl, rfl⟩, ⟨le_refl _, le_refl _⟩, ⟨by norm_num, by norm_num [tcC7]⟩,
    rfl, ?_, ?_, ?_⟩ <;> norm_num [tcC7]

/-- C7 (amended): for an error-free counter monotone non-decreasing over
the text's prefixes, `truncate_tokens` returns the empty string for a
non-positive budget; returns the text unchanged when its count fits the
budget; when the text exceeds the budget but the empty prefix fits, it
returns the prefix of the maximal rune count whose count fits the budget;
and when even the empty prefix exceeds the budget (so no such maximal
length exists), it returns the empty string, whose count then exceeds the
budget. -/
theorem truncateTokens_spec (tc : List Char → Int × Option String) (text : List Char)
    (maxTokens : Int)
    (herr : ∀ i, i ≤ text.length → (tc (text.take i)).2 = none)
    (hmono : ∀ i j, i ≤ j → j ≤ text.length →
      (tc (text.take i)).1 ≤ (tc (text.take j)).1) :
    (maxTokens ≤ 0 → truncateTokens tc text maxTokens = .ok []) ∧
    (0 < maxTokens → (tc text).1 ≤ maxTokens →
      truncateTokens tc text maxTokens = .ok text) ∧
    (0 < maxTokens → maxTokens < (tc text).1 →
      (tc ([] : List Char)).1 ≤ maxTokens →
      ∃ L, truncateTokens tc text maxTokens = .ok (text.take L) ∧
        L ≤ text.length ∧ (tc (text.take L)).1 ≤ maxTokens ∧
        ∀ M, M ≤ text.length → (tc (text.take M)).1 ≤ maxTokens → M ≤ L) ∧
    (0 < maxTokens → maxTokens < (tc text).1 →
      maxTokens < (tc ([] : List Char)).1 →
      truncateTokens tc text maxTokens = .ok []) := by
  have h2 : (tc text).2 = none := by
    have h := herr text.length (le_refl _)
    rwa [List.take_length] at h
  have htake0 : text.take 0 = ([] : List Char) := List.take_zero _
  refine ⟨?_, ?_, ?_, ?_⟩
  · intro hle
    simp only [truncateTokens, truncRun, if_pos hle]
  · intro hpos hfit
    simp only [truncateTokens, truncRun, if_neg (by omega : ¬ maxTokens ≤ 0), h2,
      if_pos hfit]
  · intro hpos hover hempty
    have hbound : ∀ M, text.length < M → M ≤ text.length →
        ¬ (tc (text.take M)).1 ≤ maxTokens := by
      intro M hM1 hM2
      omega
    have hp0 : (tc (text.take 0)).1 ≤ maxTokens := by
      rw [htake0]
      exact hempty
    have hspec := truncSearchGo_spec (fun s => (tc s).1) text maxTokens hmono
      text.length 0 text.length (by omega) (by omega) (le_refl _) hp0 hbound
    refine ⟨(truncSearchGo (fun s => (tc s).1) text maxTokens text.length 0
      text.length).1, ?_, ?_, hspec.2.2.1, hspec.2.2.2⟩
    · simp only [truncateTokens, truncRun, if_neg (by omega : ¬ maxTokens ≤ 0), h2,
        if_neg (by omega : ¬ (tc text).1 ≤ maxTokens)]
    · exact le_trans hspec.2.1 (le_refl _)
  · intro hpos hover hempty
    have hfail : ∀ M, 0 < M → M ≤ text.length →
        ¬ (tc (text.take M)).1 ≤ maxTokens := by
      intro M hM1 hM2 hPM
      have hm := hmono 0 M (by omega) hM2
      rw [htake0] at hm
      omega
    have hzero := truncSearchGo_all_fail (fun s => (tc s).1) text maxTokens
      text.length 0 text.length hfail
    simp only [truncateTokens, truncRun, if_neg (by omega : ¬ maxTokens ≤ 0), h2,
      if_neg (by omega : ¬ (tc text).1 ≤ maxTokens), hzero, htake0]

/-- C7 witness: the one-token-per-rune counter on a four-rune text with
budget 2 yields the two-rune prefix, which the amended theorem certifies
as the maximal fitting prefix. -/
theorem truncateTokens_spec_witness :
    truncateTokens tcCountC7 ['a', 'b', 'c', 'd'] 2 = .ok ['a', 'b'] ∧
    ∃ L, truncateTokens tcCountC7 ['a', 'b', 'c', 'd'] 2 =
        .ok (List.take L ['a', 'b', 'c', 'd']) ∧
      L ≤ 4 ∧ (tcCountC7 (List.take L ['a', 'b', 'c', 'd'])).1 ≤ 2 ∧
      ∀ M, M ≤ 4 → (tcCountC7 (List.take M ['a', 'b', 'c', 'd'])).1 ≤ 2 → M ≤ L := by
  refine ⟨rfl, ?_⟩
  exact (truncateTokens_spec tcCountC7 ['a', 'b', 'c', 'd'] 2
    (fun i _ => rfl)
    (by
      intro i j hij hj
      simp only [tcCountC7, List.length_take]
      omega)).2.2.1 (by norm_num) (by norm_num [tcCountC7]) (by norm_num [tcCountC7])

/-! ## Claim C8 — what the returned execution shares with the template -/

/-- Reading an address just past the end of the store returns the newly
appended map object. -/
theorem store_read_concat (maps : List (List (String × String)))
    (x : List (String × String)) :
    (PromptyHeap.Store.read ⟨maps ++ [x]⟩ maps.length) = x := by
  induction maps with
  | nil => rfl
  | cons m rest ih => simp [PromptyHeap.Store.read, List.getD]

/-- C8 counterexample: for a concrete template whose tool parameters live
at address 0 and whose response format points at schema object 0, the
execution built by the return statement carries the template's own
response-format pointer and the same parameters address; writing through
the returned tool's parameters map changes the parameters the source
template reads from `[("p","1")]` to `[("p","HACKED")]` — the clones are
not deep. -/
theorem execution_deep_copy_cex :
    (PromptyHeap.buildExecution storeC8 tplC8).2.responseFormat = tplC8.responseFormat ∧
    ((PromptyHeap.buildExecution storeC8 tplC8).2.tools.getD 0 ⟨"", "", none⟩).parameters
      = some 0 ∧
    (tplC8.tools.getD 0 ⟨"", "", none⟩).parameters = some 0 ∧
    PromptyHeap.readToolParams storeC8 tplC8 0 = [("p", "1")] ∧
    PromptyHeap.readToolParams
      (PromptyHeap.Store.write (PromptyHeap.buildExecution storeC8 tplC8).1 0 "p" "HACKED")
      tplC8 0 = [("p", "HACKED")] ∧
    ([("p", "HACKED")] : List (String × String)) ≠ [("p", "1")] := by
  exact ⟨rfl, rfl, rfl, rfl, rfl, by decide⟩

/-- C8 (amended): the `PromptExecution` construction clones one level
deep — the tools slice and the metadata tags are element-wise copies (so
the parameters-map references inside the tools are shared with the
template), the response-format pointer is passed through unchanged, and
the model config becomes a freshly allocated map with equal contents whose
address is distinct from every address of the original store. -/
theorem buildExecution_shallow_clone (st : PromptyHeap.Store)
    (t : PromptyHeap.TemplateH) :
    (PromptyHeap.buildExecution st t).2.tools = t.tools ∧
    (PromptyHeap.buildExecution st t).2.responseFormat = t.responseFormat ∧
    (PromptyHeap.buildExecution st t).2.metadataTags = t.metadataTags ∧
    (t.modelConfig = none → (PromptyHeap.buildExecution st t).2.modelConfig = none) ∧
    (∀ a, t.modelConfig = some a →
      (PromptyHeap.buildExecution st t).2.modelConfig = some st.maps.length ∧
      PromptyHeap.Store.read (PromptyHeap.buildExecution st t).1 st.maps.length =
        PromptyHeap.Store.read st a ∧
      (a < st.maps.length →
        (PromptyHeap.buildExecution st t).2.modelConfig ≠ t.modelConfig)) := by
  cases hmc : t.modelConfig with
  | none =>
    refine ⟨?_, ?_, ?_, fun _ => ?_, fun a ha => ?_⟩ <;>
      simp [PromptyHeap.buildExecution, PromptyHeap.cloneMapOpt, hmc] at *
  | some a =>
    refine ⟨?_, ?_, ?_, fun hn => ?_, fun b hb => ?_⟩
    · simp [PromptyHeap.buildExecution, PromptyHeap.cloneMapOpt, hmc]
    · simp [PromptyHeap.buildExecution, PromptyHeap.cloneMapOpt, hmc]
    · simp [PromptyHeap.buildExecution, PromptyHeap.cloneMapOpt, hmc]
    · cases hn
    · have hba : b = a := (Option.some.inj hb).symm
      subst hba
      refine ⟨?_, ?_, ?_⟩
      · simp [PromptyHeap.buildExecution, PromptyHeap.cloneMapOpt, hmc]
      · simp only [PromptyHeap.buildExecution, PromptyHeap.cloneMapOpt, hmc]
        exact store_read_concat st.maps (PromptyHeap.Store.read st b)
      · intro hlt
        simp only [PromptyHeap.buildExecution, PromptyHeap.cloneMapOpt, hmc, ne_eq]
        intro heq
        exact absurd (Option.some.inj heq) (Nat.ne_of_gt hlt)

/-- C8 witness: for the concrete store and template, the model config of
the built execution sits at the fresh address 3 with the same contents as
the original at address 2, and differs from the template's reference. -/
theorem buildExecution_shallow_clone_witness :
    (PromptyHeap.buildExecution storeC8 tplC8).2.modelConfig = some 3 ∧
    PromptyHeap.Store.read (PromptyHeap.buildExecution storeC8 tplC8).1 3 =
      PromptyHeap.Store.read storeC8 2 ∧
    (PromptyHeap.buildExecution storeC8 tplC8).2.modelConfig ≠ tplC8.modelConfig := by
  have h := (buildExecution_shallow_clone storeC8 tplC8).2.2.2.2 2 rfl
  exact ⟨h.1, h.2.1, h.2.2 (by decide)⟩

/-! ## Claim C9 — payload independence without variable references -/

/-- A body with no field-access roots evaluates identically under any two
variable maps. -/
theorem evalTpl_const (t : TplNode) (h : collectFieldRoots t = [])
    (m mB : VarMap) : evalTpl m t = evalTpl mB t := by
  induction t with
  | lit s => rfl
  | field root path => simp [collectFieldRoots] at h
  | cat a b iha ihb =>
    simp only [collectFieldRoots, List.append_eq_nil] at h
    simp [evalTpl, iha h.1, ihb h.2]
  | cond root path thn els _ _ => simp [collectFieldRoots] at h

/-- The render loop is independent of the merged map when no message body
references a variable and every precomputed variable list is empty. -/
theorem renderMessagesFrom_const (m mB : VarMap) :
    ∀ (pms : List ParsedMessage) (i : Nat),
    (∀ pm ∈ pms, ∀ t, pm.tpl = some t → collectFieldRoots t = []) →
    (∀ pm ∈ pms, pm.vars = []) →
    renderMessagesFrom m i pms = renderMessagesFrom mB i pms := by
  intro pms
  induction pms with
  | nil => intro i _ _; rfl
  | cons pm rest ih =>
    intro i hno hvars
    have hnoR : ∀ q ∈ rest, ∀ t, q.tpl = some t → collectFieldRoots t = [] :=
      fun q hq => hno q (by simp [hq])
    have hvarsR : ∀ q ∈ rest, q.vars = [] := fun q hq => hvars q (by simp [hq])
    cases ht : pm.tpl with
    | none => simp [renderMessagesFrom, ht]
    | some t =>
      have heval : evalTpl m t = evalTpl mB t :=
        evalTpl_const t (hno pm (by simp) t ht) m mB
      simp only [renderMessagesFrom, ht, hvars pm (by simp), allVarsZeroForMessage,
        List.all_nil, Bool.and_true]
      by_cases hopt : pm.optional
      · simp only [hopt, if_true]
        exact ih (i + 1) hnoR hvarsR
      · simp only [hopt, Bool.false_eq_true, if_false, ← heval]
        rw [ih (i + 1) hnoR hvarsR]

/-- C9 counterexample: the template `tplC9` has a single literal body with
no variable references, yet two valid payloads that differ in their
history-typed field produce different message lists — the history is part
of the payload and flows into the output, so the output depends on the
payload's contents. -/
theorem formatStruct_payload_dependence_cex :
    Except.map (fun e => e.Messages) (formatStruct tplC9 pC9a) =
      .ok [⟨.system, [.text "Hi" ""]⟩, ⟨.user, [.text "secret" ""]⟩] ∧
    Except.map (fun e => e.Messages) (formatStruct tplC9 pC9b) =
      .ok [⟨.system, [.text "Hi" ""]⟩] ∧
    ([⟨.system, [.text "Hi" ""]⟩, ⟨.user, [.text "secret" ""]⟩] : List ChatMessage) ≠
      [⟨.system, [.text "Hi" ""]⟩] := by
  refine ⟨rfl, rfl, by decide⟩

/-- C9 (amended): for a compiled template whose message bodies contain no
variable references (and whose precomputed per-message variable lists are
accordingly empty), any two payloads whose extractions succeed with the
same history and which both pass required-variable validation produce
identical `FormatStruct` results: the variables a payload carries cannot
influence the output. -/
theorem formatStruct_no_var_refs_payload_independent
    (c : ChatPromptTemplate) (p1 p2 : List PayloadField) (v1 v2 : VarMap)
    (h : List ChatMessage)
    (hpf1 : getPayloadFields p1 = .ok (v1, h))
    (hpf2 : getPayloadFields p2 = .ok (v2, h))
    (hno : ∀ pm ∈ c.parsedTemplates, ∀ t, pm.tpl = some t → collectFieldRoots t = [])
    (hvars : ∀ pm ∈ c.parsedTemplates, pm.vars = [])
    (hreq1 : firstMissing (mergedMap c v1)
      (mergeRequiredVars c.RequiredVars c.requiredFromAST) = none)
    (hreq2 : firstMissing (mergedMap c v2)
      (mergeRequiredVars c.RequiredVars c.requiredFromAST) = none) :
    formatStruct c p1 = formatStruct c p2 := by
  simp only [formatStruct, hpf1, hpf2, hreq1, hreq2]
  rw [renderMessagesFrom_const (mergedMap c v1) (mergedMap c v2)
    c.parsedTemplates 0 hno hvars]

/-- C9 witness: two payloads with different variable contents but the same
(empty) history render the no-references template identically. -/
theorem formatStruct_no_var_refs_witness :
    formatStruct tplC9 pC9b = formatStruct tplC9 pC9c := by
  exact formatStruct_no_var_refs_payload_independent tplC9 pC9b pC9c
    [("x", .vstr "")] [("x", .vstr "different")] []
    rfl rfl
    (by
      intro pm hpm t ht
      simp only [tplC9, List.mem_singleton] at hpm
      subst hpm
      simp only [Option.some.injEq] at ht
      subst ht
      rfl)
    (by
      intro pm hpm
      simp only [tplC9, List.mem_singleton] at hpm
      subst hpm
      rfl)
    rfl rfl

end Prompty
